import Mathlib

/-!
# Verification of the `near-syn`/`near-doc` contract-model core

A shallow embedding of the core of the repository:

* the syntax-tree fragment of `syn` that the code inspects (paths with
  segments and generic arguments, types, attributes, methods, `impl` and
  `trait` items);
* `src/lib.rs`: `has_attr`, `is_ident`, the `NearMethod` classifier
  predicates (`is_public`, `is_mut`, `is_init`, `is_payable`, `is_private`,
  `is_exported`), the `NearImpl` helpers (`is_bindgen`, `get_trait_name`,
  `get_impl_name`, `exported_methods`, `bindgen_methods`) and
  `ImplItemMethod::join_attrs`;
* `src/contract.rs`: `NearItemTrait` (`new`/`get`), the `Contract` model and
  `Contract::push_impl`;
* `src/ts.rs`: the type projector `ts_type` (with its inner `ts_type_assoc`,
  `single`, `use_paren` and `gen_args` helpers) and the signature projector
  `ts_sig`.

Rust panics are modelled as `Except.error` carrying the panic message text.
`HashMap` is modelled as an association list with key-uniqueness maintained by
`hm_insert` (insert replaces the previous binding of the key), which matches
the observable insert/get semantics of `HashMap`.
-/

/-- Model of the constructor kind of `syn::PathArguments`.  `noArgs` is
`PathArguments::None`, `angleBracketed` is `PathArguments::AngleBracketed`
(whose argument list is stored next to the kind in a segment), and
`parenthesized` is `PathArguments::Parenthesized`. -/
inductive ArgKind where
  | noArgs
  | angleBracketed
  | parenthesized
deriving DecidableEq

/-- Model of `syn::Path`, parameterized by the type payload so that it can be
nested inside the type grammar.  A segment is its identifier, the kind of its
`PathArguments`, and (meaningful only when the kind is `angleBracketed`) the
list of generic arguments; a generic argument is `some ty` for
`GenericArgument::Type(ty)` and `none` for any non-type generic argument
(lifetime, const, binding, ...). -/
structure PathOf (α : Type) where
  leading_colon : Bool
  segments : List (String × ArgKind × List (Option α))

/-- Model of `syn::Type`, restricted to the constructors the code
distinguishes: `Type::Path`, `Type::Paren`, `Type::Tuple`, and everything
else (`Type::Reference`, `Type::Ptr`, ...) collapsed into `otherTy`. -/
inductive Typ where
  | path (p : PathOf Typ)
  | paren (elem : Typ)
  | tuple (elems : List Typ)
  | otherTy

/-- A `syn::Path` as it occurs in the sources. -/
abbrev SynPath := PathOf Typ

/-- `join_path` from `src/lib.rs`: joins the identifiers of the segments of a path
by `::` (the leading colon, if any, is not rendered). -/
def join_path (p : SynPath) : String :=
  String.intercalate "::" (p.segments.map (fun seg => seg.1))

/-- Model of `syn::Attribute`: its `path` and the remaining raw tokens (the
token payload is never inspected by the embedded functions; it makes
attributes distinguishable values, e.g. doc comments with their text). -/
structure Attribute where
  path : SynPath
  tokens : String

/-- Model of `syn::Visibility`; `ImplItemMethod::is_public` matches only the
`Visibility::Public` constructor. -/
inductive Visibility where
  | pub
  | crateVis
  | restricted
  | inherited

/-- Model of `syn::Pat` as used by `ts_sig`: only `Pat::Ident` is inspected;
every other pattern is `otherPat`. -/
inductive Pat where
  | ident (name : String)
  | otherPat

/-- Model of `syn::FnArg`: a receiver (`self`, with `mutability.is_some()`
modelled as the `Bool`) or a typed argument. -/
inductive FnArg where
  | receiver (mutability : Bool)
  | typed (pat : Pat) (ty : Typ)

/-- Model of `syn::ImplItemMethod`: attributes, visibility, and the parts of
its signature the code reads (`sig.ident`, `sig.inputs`, `sig.output`; a
`ReturnType::Default` output is `none`). -/
structure ImplItemMethod where
  attrs : List Attribute
  vis : Visibility
  sig_ident : String
  sig_inputs : List FnArg
  sig_output : Option Typ

/-- Model of `syn::ImplItem`: only `ImplItem::Method` is inspected. -/
inductive ImplItem where
  | method (m : ImplItemMethod)
  | otherImplItem

/-- Model of `syn::ItemImpl`: attributes, the path of the implemented trait (the
`trait_` field, `Some((excl, path, for_))` reduced to its path), the self
type, and the items. -/
structure ItemImpl where
  attrs : List Attribute
  trait_ : Option SynPath
  self_ty : Typ
  items : List ImplItem

/-- Model of `syn::TraitItemMethod`: its name and attributes (all that
`join_attrs` reads). -/
structure TraitItemMethod where
  sig_ident : String
  attrs : List Attribute

/-- Model of `syn::TraitItem`: only `TraitItem::Method` is inspected. -/
inductive TraitItem where
  | method (m : TraitItemMethod)
  | otherTraitItem

/-- Model of `syn::ItemTrait`: attributes, name, items. -/
structure ItemTrait where
  attrs : List Attribute
  ident : String
  items : List TraitItem

/-- `syn::Path::is_ident` (syn 1.x): true iff the path has no leading colon,
exactly one segment, that segment has no path arguments, and its identifier
equals `ident`. -/
def syn_path_is_ident (p : SynPath) (ident : String) : Bool :=
  match p.leading_colon, p.segments with
  | false, [(id, ArgKind.noArgs, _)] => id == ident
  | _, _ => false

/-- The inner `last_segment_is_ident` of `is_ident` in `src/lib.rs`:
`len >= 2 && segments[len - 1].arguments == PathArguments::None &&
segments[len - 1].ident.to_string() == ident`. -/
def last_segment_is_ident (p : SynPath) (ident : String) : Bool :=
  decide (p.segments.length ≥ 2) &&
    (match p.segments.getLast? with
      | some (id, k, _) => (k == ArgKind.noArgs) && (id == ident)
      | none => false)

/-- `is_ident` from `src/lib.rs`:
`path.is_ident(ident) || last_segment_is_ident(path, ident)`. -/
def is_ident (p : SynPath) (ident : String) : Bool :=
  syn_path_is_ident p ident || last_segment_is_ident p ident

/-- `has_attr` from `src/lib.rs`: the loop over `attrs` returning `true` on
the first attribute whose path satisfies `is_ident`. -/
def has_attr : List Attribute → String → Bool
  | [], _ => false
  | attr :: rest, attr_name =>
    if is_ident attr.path attr_name then true else has_attr rest attr_name

/-- `ImplItemMethod::is_public` (`src/lib.rs`): the visibility is
`Visibility::Public`. -/
def ImplItemMethod.is_public (m : ImplItemMethod) : Bool :=
  match m.vis with
  | Visibility.pub => true
  | _ => false

/-- `ImplItemMethod::is_mut` (`src/lib.rs`): the first input is a receiver
and its mutability is present. -/
def ImplItemMethod.is_mut (m : ImplItemMethod) : Bool :=
  match m.sig_inputs with
  | FnArg.receiver r :: _ => r
  | _ => false

/-- `ImplItemMethod::is_init` (`src/lib.rs`): `has_attr(attrs, "init")`. -/
def ImplItemMethod.is_init (m : ImplItemMethod) : Bool :=
  has_attr m.attrs "init"

/-- `ImplItemMethod::is_payable` (`src/lib.rs`): `has_attr(attrs, "payable")`. -/
def ImplItemMethod.is_payable (m : ImplItemMethod) : Bool :=
  has_attr m.attrs "payable"

/-- `ImplItemMethod::is_private` (`src/lib.rs`): `has_attr(attrs, "private")`. -/
def ImplItemMethod.is_private (m : ImplItemMethod) : Bool :=
  has_attr m.attrs "private"

/-- `ImplItemMethod::is_exported` (`src/lib.rs`):
`(self.is_public() || input.trait_.is_some()) && !self.is_private()`. -/
def ImplItemMethod.is_exported (m : ImplItemMethod) (input : ItemImpl) : Bool :=
  (m.is_public || input.trait_.isSome) && !m.is_private

/-- `ItemImpl::is_bindgen` (`src/lib.rs`): `has_attr(attrs, "near_bindgen")`. -/
def ItemImpl.is_bindgen (i : ItemImpl) : Bool :=
  has_attr i.attrs "near_bindgen"

/-- `ItemImpl::get_trait_name` (`src/lib.rs`): the joined path of the
implemented trait, if any. -/
def ItemImpl.get_trait_name (i : ItemImpl) : Option String :=
  match i.trait_ with
  | some trait_path => some (join_path trait_path)
  | none => none

/-- `ItemImpl::get_impl_name` (`src/lib.rs`): the joined path of the self
type when it is a `Type::Path`, `None` otherwise. -/
def ItemImpl.get_impl_name (i : ItemImpl) : Option String :=
  match i.self_ty with
  | Typ.path type_path => some (join_path type_path)
  | _ => none

/-- `ItemImpl::exported_methods` (`src/lib.rs`): the loop collecting every
`ImplItem::Method` of the impl that `is_exported`. -/
def ItemImpl.exported_methods (i : ItemImpl) : List ImplItemMethod :=
  i.items.foldl
    (fun methods impl_item =>
      match impl_item with
      | ImplItem.method method =>
        if method.is_exported i then methods ++ [method] else methods
      | _ => methods)
    []

/-- `ItemImpl::bindgen_methods` (`src/lib.rs`): the exported methods when the
impl `is_bindgen` and the list is non-empty, `None` otherwise. -/
def ItemImpl.bindgen_methods (i : ItemImpl) : Option (List ImplItemMethod) :=
  let methods := i.exported_methods
  if i.is_bindgen && decide (methods.length > 0) then some methods else none

/-- `HashMap::insert` on the association-list model of a hash map: the new
binding replaces any previous binding of the same key. -/
def hm_insert {α : Type} (k : String) (v : α) (m : List (String × α)) : List (String × α) :=
  (k, v) :: m.filter (fun p => !(p.1 == k))

/-- `HashMap::get` on the association-list model of a hash map. -/
def hm_get {α : Type} (k : String) (m : List (String × α)) : Option α :=
  (m.find? (fun p => p.1 == k)).map (fun p => p.2)

/-- `NearItemTrait` (`src/contract.rs`): the trait item together with its
method map indexed by method name. -/
structure NearItemTrait where
  item_trait : ItemTrait
  methods : List (String × TraitItemMethod)

/-- `NearItemTrait::get` (`src/contract.rs`): `self.methods.get(name)`. -/
def NearItemTrait.get (nt : NearItemTrait) (name : String) : Option TraitItemMethod :=
  hm_get name nt.methods

/-- `NearItemTrait::new` (`src/contract.rs`): index every
`TraitItem::Method` of the trait by its name (a later same-named method
replaces an earlier one, as `HashMap::insert` does). -/
def NearItemTrait.new (item_trait : ItemTrait) : NearItemTrait :=
  { item_trait := item_trait
    methods :=
      item_trait.items.foldl
        (fun methods item =>
          match item with
          | TraitItem.method method => hm_insert method.sig_ident method methods
          | _ => methods)
        [] }

/-- `ImplItemMethod::join_attrs` (`src/lib.rs`): when a trait descriptor is
given and holds a method of the same name, the attributes of the impl method
followed by the attributes of the trait method; otherwise the attributes of
the impl method alone. -/
def ImplItemMethod.join_attrs (m : ImplItemMethod) (item_trait : Option NearItemTrait) :
    List Attribute :=
  let name := m.sig_ident
  match item_trait with
  | some base_trait =>
    match base_trait.get name with
    | some base_method => m.attrs ++ base_method.attrs
    | none => m.attrs
  | none => m.attrs

/-- Minimal model of `syn::ItemStruct` (only carried inside `NearItem`). -/
structure ItemStruct where
  attrs : List Attribute
  ident : String

/-- Minimal model of `syn::ItemEnum` (only carried inside `NearItem`). -/
structure ItemEnum where
  attrs : List Attribute
  ident : String

/-- Minimal model of `syn::ItemType` (only carried inside `NearItem`). -/
structure ItemType where
  attrs : List Attribute
  ident : String
  ty : Typ

/-- `NearItem` (`src/contract.rs`): the retained-declaration variants. -/
inductive NearItem where
  | Impl (item : ItemImpl)
  | Struct (item : ItemStruct)
  | Enum (item : ItemEnum)
  | TypeDef (item : ItemType)

/-- `Contract` (`src/contract.rs`): the contract model under construction. -/
structure Contract where
  name : Option String
  top_level_attrs : List Attribute
  traits : List (String × NearItemTrait)
  interfaces : List String
  methods : List (String × (ImplItemMethod × ItemImpl))
  init_methods : List String
  view_methods : List String
  change_methods : List String
  items : List NearItem

/-- `Contract::new` (`src/contract.rs`). -/
def Contract.new : Contract :=
  { name := none
    top_level_attrs := []
    traits := []
    interfaces := []
    methods := []
    init_methods := []
    view_methods := []
    change_methods := []
    items := [] }

/-- The per-method body of the `for method in methods` loop of
`Contract::push_impl` (`src/contract.rs`): register the method under its
name, then append the name to the init, change or view list according to
`is_init` / `is_mut`. -/
def Contract.push_method (item_impl : ItemImpl) (c : Contract) (method : ImplItemMethod) :
    Contract :=
  let name := method.sig_ident
  let c1 := { c with methods := hm_insert name (method, item_impl) c.methods }
  if method.is_init then { c1 with init_methods := c1.init_methods ++ [name] }
  else if method.is_mut then { c1 with change_methods := c1.change_methods ++ [name] }
  else { c1 with view_methods := c1.view_methods ++ [name] }

/-- `Contract::push_impl` (`src/contract.rs`): when the impl has bindgen
methods, first append the trait name to `interfaces` (trait impl) or set
`name` from the self type (bare impl), then run the method loop, and finally
retain the impl in `items`. -/
def Contract.push_impl (c : Contract) (item_impl : ItemImpl) : Contract :=
  match item_impl.bindgen_methods with
  | some methods =>
    let c1 :=
      match item_impl.get_trait_name with
      | some trait_name => { c with interfaces := c.interfaces ++ [trait_name] }
      | none =>
        match item_impl.get_impl_name with
        | some impl_name => { c with name := some impl_name }
        | none => c
    let c2 := methods.foldl (Contract.push_method item_impl) c1
    { c2 with items := c2.items ++ [NearItem.Impl item_impl] }
  | none => c

/-- The `Assoc` enum local to `ts_type` (`src/ts.rs`), with
`#[derive(PartialEq, PartialOrd)]`: `Single < Vec < Or` in declaration
order. -/
inductive Assoc where
  | single
  | vec
  | or
deriving DecidableEq

/-- Discriminant order underlying the derived `PartialOrd` of `Assoc`. -/
def Assoc.toNat : Assoc → Nat
  | .single => 0
  | .vec => 1
  | .or => 2

/-- The derived strict `>` of `Assoc` (comparison of discriminants). -/
def Assoc.gtb (a b : Assoc) : Bool := b.toNat < a.toNat

/-- The `single` helper local to `ts_type` (`src/ts.rs`). -/
def single (ts : String) : String × Assoc := (ts, Assoc.single)

/-- The `use_paren` helper local to `ts_type` (`src/ts.rs`): parenthesize the
projected text iff its class is strictly greater than the embedding class. -/
def use_paren (ta : String × Assoc) (assoc : Assoc) : String :=
  if ta.2.gtb assoc then "(" ++ ta.1 ++ ")" else ta.1

/-- The extraction loop of `gen_args` (`src/ts.rs`): keep the type of every
`GenericArgument::Type`, panic on the first non-type generic argument. -/
def extract_types (args : List (Option Typ)) (name : String) : Except String (List Typ) :=
  match args with
  | [] => .ok []
  | some tk :: rest =>
    match extract_types rest name with
    | .ok result => .ok (tk :: result)
    | .error e => .error e
  | none :: _ => .error ("No type provided for " ++ name)

/-- The `gen_args` helper local to `ts_type` (`src/ts.rs`): reads
`p.path.segments[0].arguments`; on an angle-bracketed list first checks the
arity (panicking with the expected/actual counts), then extracts the type
arguments; any other `PathArguments` panics with "used with no generic
arguments". -/
def gen_args (p : SynPath) (nargs : Nat) (name : String) : Except String (List Typ) :=
  match p.segments with
  | [] => .error "index out of bounds: the len is 0 but the index is 0"
  | (_, kind, args) :: _ =>
    match kind with
    | ArgKind.angleBracketed =>
      if args.length ≠ nargs then
        .error (name ++ " expects " ++ toString nargs ++ " generic(s) argument(s), found "
          ++ toString args.length)
      else
        extract_types args name
    | _ => .error (name ++ " used with no generic arguments")

theorem extract_types_mem {args : List (Option Typ)} {name : String} {ts : List Typ}
    (h : extract_types args name = .ok ts) : ∀ t ∈ ts, some t ∈ args := by
  induction args generalizing ts with
  | nil => simp [extract_types] at h; subst h; simp
  | cons a rest ih =>
    match a with
    | some t' =>
      simp only [extract_types] at h
      cases hrest : extract_types rest name with
      | ok r =>
        rw [hrest] at h
        simp at h
        subst h
        intro t ht
        rcases List.mem_cons.mp ht with h1 | h2
        · simp [h1]
        · exact List.mem_cons_of_mem _ (ih hrest t h2)
      | error e => rw [hrest] at h; simp at h
    | none => simp [extract_types] at h

theorem sizeOf_lt_of_some_mem {args : List (Option Typ)} {t : Typ}
    (h : some t ∈ args) : sizeOf t < sizeOf args := by
  have := List.sizeOf_lt_of_mem h
  simp at this
  omega

theorem gen_args_sizeOf {p : SynPath} {n : Nat} {name : String} {ts : List Typ}
    (h : gen_args p n name = .ok ts) : ∀ t ∈ ts, sizeOf t < sizeOf (Typ.path p) := by
  intro t ht
  unfold gen_args at h
  match hsegs : p.segments with
  | [] => rw [hsegs] at h; simp at h
  | (nm, kind, args) :: rest =>
    rw [hsegs] at h
    match kind with
    | ArgKind.angleBracketed =>
      simp only at h
      split at h
      · simp at h
      · have hmem := extract_types_mem h t ht
        have h1 : sizeOf t < sizeOf args := sizeOf_lt_of_some_mem hmem
        have h2 : sizeOf args ≤ sizeOf p.segments := by
          rw [hsegs]
          simp
          omega
        have h3 : sizeOf p.segments < sizeOf (Typ.path p) := by
          cases p with
          | mk lc segs => simp; omega
        omega
    | ArgKind.noArgs => simp at h
    | ArgKind.parenthesized => simp at h

mutual
/-- The inner `ts_type_assoc` of `ts_type` (`src/ts.rs`): projects a Rust
type expression to its TypeScript text together with its `Assoc` class.  The
`Type::Path` case dispatches on the joined path; the string-match arms appear
in source order.  Rust panics are `Except.error` with the panic message. -/
def ts_type_assoc : Typ → Except String (String × Assoc)
  | Typ.path p =>
    let s := join_path p
    if s = "bool" then .ok (single "boolean")
    else if s = "u64" then .ok (single "number")
    else if s = "i8" ∨ s = "u8" ∨ s = "i16" ∨ s = "u16" ∨ s = "i32" ∨ s = "u32" then
      .ok (single "number")
    else if s = "String" then .ok (single "string")
    else if s = "Option" then
      match hg : gen_args p 1 "Option" with
      | .error e => .error e
      | .ok targs =>
        match targs with
        | [] => .error "index out of bounds: the len is 0 but the index is 0"
        | t :: _ =>
          match ts_type_assoc t with
          | .error e => .error e
          | .ok ta => .ok (use_paren ta Assoc.or ++ "|null", Assoc.or)
    else if s = "Vec" ∨ s = "HashSet" ∨ s = "BTreeSet" then
      match hg : gen_args p 1 "Vec" with
      | .error e => .error e
      | .ok targs =>
        match targs with
        | [] => .error "index out of bounds: the len is 0 but the index is 0"
        | t :: _ =>
          match ts_type_assoc t with
          | .error e => .error e
          | .ok ta => .ok (use_paren ta Assoc.vec ++ "[]", Assoc.vec)
    else if s = "HashMap" ∨ s = "BTreeMap" then
      match hg : gen_args p 2 "HashMap" with
      | .error e => .error e
      | .ok targs =>
        match targs with
        | tk :: tv :: _ =>
          match ts_type_assoc tk with
          | .error e => .error e
          | .ok tks =>
            match ts_type_assoc tv with
            | .error e => .error e
            | .ok tvs => .ok ("Record<" ++ tks.1 ++ ", " ++ tvs.1 ++ ">", Assoc.single)
        | _ => .error "index out of bounds: the len is 0 but the index is 0"
    else .ok (single s)
  | Typ.paren paren_elem => ts_type_assoc paren_elem
  | Typ.tuple elems =>
    if elems.isEmpty then .ok ("void", Assoc.single)
    else
      match ts_type_assoc_list elems with
      | .error e => .error e
      | .ok tys => .ok ("[" ++ String.intercalate ", " tys ++ "]", Assoc.single)
  | Typ.otherTy => .error "type not supported"
termination_by t => sizeOf t
decreasing_by
  all_goals
    first
      | exact gen_args_sizeOf hg t (by simp)
      | exact gen_args_sizeOf hg tk (by simp)
      | exact gen_args_sizeOf hg tv (by simp)
      | decreasing_tactic

/-- The element loop of the `Type::Tuple` case of `ts_type_assoc`
(`src/ts.rs`): project each element, keeping the text and discarding the
class. -/
def ts_type_assoc_list : List Typ → Except String (List String)
  | [] => .ok []
  | t :: rest =>
    match ts_type_assoc t with
    | .error e => .error e
    | .ok ta =>
      match ts_type_assoc_list rest with
      | .error e => .error e
      | .ok tys => .ok (ta.1 :: tys)
termination_by l => sizeOf l
end

/-- `ts_type` (`src/ts.rs`): `ts_type_assoc(ty).0`. -/
def ts_type (ty : Typ) : Except String String :=
  match ts_type_assoc ty with
  | .ok ta => .ok ta.1
  | .error e => .error e

/-- The argument-collection loop of `ts_sig` (`src/ts.rs`): for each typed
input whose pattern is a `Pat::Ident`, push `"name: type"`; receivers and
non-ident patterns are skipped. -/
def ts_sig_args : List FnArg → Except String (List String)
  | [] => .ok []
  | arg :: rest =>
    match arg with
    | FnArg.typed pat ty =>
      match pat with
      | Pat.ident arg_ident =>
        match ts_type ty with
        | .error e => .error e
        | .ok type_name =>
          match ts_sig_args rest with
          | .error e => .error e
          | .ok args => .ok ((arg_ident ++ ": " ++ type_name) :: args)
      | _ => ts_sig_args rest
    | _ => ts_sig_args rest

/-- `ts_sig` (`src/ts.rs`): collect the packed arguments; an `is_init` method
is rendered `name: \x7b args \x7d;`, any other method is rendered
`name(args_decl): Promise<ret>;` where `args_decl` optionally packs the
arguments and appends `gas?: any` when `is_mut` and `amount?: any` when
`is_payable`, and a `Promise` return type is replaced by `void`. -/
def ts_sig (method : ImplItemMethod) : Except String String :=
  match ts_sig_args method.sig_inputs with
  | .error e => .error e
  | .ok args =>
    if method.is_init then
      .ok (method.sig_ident ++ ": \x7b " ++ String.intercalate ", " args ++ " \x7d;")
    else
      match
        (match method.sig_output with
          | none => Except.ok "void"
          | some typ =>
            match ts_type typ with
            | .error e => .error e
            | .ok ty => .ok (if ty = "Promise" then "void" else ty)) with
      | .error e => .error e
      | .ok ret_type =>
        let args_decl :=
          (if decide (args.length > 0) then
            ["args: \x7b " ++ String.intercalate ", " args ++ " \x7d"]
          else [])
          ++ (if method.is_mut then ["gas?: any"] else [])
          ++ (if method.is_payable then ["amount?: any"] else [])
        .ok (method.sig_ident ++ "(" ++ String.intercalate ", " args_decl ++ "): Promise<"
          ++ ret_type ++ ">;")

theorem intercalate_sep_single (nm : String) : String.intercalate "::" [nm] = nm := by
  simp [String.intercalate, String.intercalate.go]

theorem join_path_single (lc : Bool) (nm : String) (k : ArgKind) (a : List (Option Typ)) :
    join_path ⟨lc, [(nm, k, a)]⟩ = nm := by
  simp [join_path, intercalate_sep_single]

theorem not_gtb_or (a : Assoc) : Assoc.gtb a Assoc.or = false := by
  cases a <;> simp [Assoc.gtb, Assoc.toNat]

/-- Shorthand for the source type `Option<t>`. -/
def optionOf (t : Typ) : Typ :=
  Typ.path ⟨false, [("Option", ArgKind.angleBracketed, [some t])]⟩

/-- Shorthand for a plain named source type with no generic arguments. -/
def namedTy (nm : String) : Typ :=
  Typ.path ⟨false, [(nm, ArgKind.noArgs, [])]⟩

theorem ts_type_assoc_option_step (t : Typ) :
    ts_type_assoc (optionOf t) =
      match ts_type_assoc t with
      | .error e => .error e
      | .ok ta => .ok (use_paren ta Assoc.or ++ "|null", Assoc.or) := by
  rw [ts_type_assoc.eq_def]
  simp [optionOf, join_path_single, gen_args, extract_types]

theorem ts_type_assoc_plain (lc : Bool) (nm : String) (args : List (Option Typ))
    (h : ¬ (nm = "bool" ∨ nm = "u64" ∨ nm = "i8" ∨ nm = "u8" ∨ nm = "i16" ∨ nm = "u16"
      ∨ nm = "i32" ∨ nm = "u32" ∨ nm = "String" ∨ nm = "Option" ∨ nm = "Vec"
      ∨ nm = "HashSet" ∨ nm = "BTreeSet" ∨ nm = "HashMap" ∨ nm = "BTreeMap")) :
    ts_type_assoc (Typ.path ⟨lc, [(nm, ArgKind.noArgs, args)]⟩) = .ok (nm, Assoc.single) := by
  rw [ts_type_assoc.eq_def]
  push_neg at h
  obtain ⟨h1, h2, h3, h4, h5, h6, h7, h8, h9, h10, h11, h12, h13, h14, h15⟩ := h
  simp [join_path_single, h1, h2, h3, h4, h5, h6, h7, h8, h9, h10, h11, h12, h13, h14, h15,
    single]

/-- Evaluation of `ts_type_assoc` on a path that joins to `"Option"`: the
`Option` arm of the string match. -/
theorem ts_type_assoc_option_branch (p : SynPath) (hjoin : join_path p = "Option") :
    ts_type_assoc (Typ.path p) =
      match gen_args p 1 "Option" with
      | .error e => .error e
      | .ok targs =>
        match targs with
        | [] => .error "index out of bounds: the len is 0 but the index is 0"
        | t :: _ =>
          match ts_type_assoc t with
          | .error e => .error e
          | .ok ta => .ok (use_paren ta Assoc.or ++ "|null", Assoc.or) := by
  rw [ts_type_assoc.eq_def]
  simp only [hjoin, String.reduceEq, or_self, true_or, or_true, false_or, or_false, reduceIte]
  split <;> rename_i x heq <;> (conv_rhs => rw [heq]) <;>
    first
      | rfl
      | (cases x <;> rfl)

/-- Evaluation of `ts_type_assoc` on a path that joins to `"Vec"`,
`"HashSet"` or `"BTreeSet"`: the sequence arm of the string match, which
passes the fixed name `"Vec"` to `gen_args`. -/
theorem ts_type_assoc_vec_branch (p : SynPath)
    (hjoin : join_path p = "Vec" ∨ join_path p = "HashSet" ∨ join_path p = "BTreeSet") :
    ts_type_assoc (Typ.path p) =
      match gen_args p 1 "Vec" with
      | .error e => .error e
      | .ok targs =>
        match targs with
        | [] => .error "index out of bounds: the len is 0 but the index is 0"
        | t :: _ =>
          match ts_type_assoc t with
          | .error e => .error e
          | .ok ta => .ok (use_paren ta Assoc.vec ++ "[]", Assoc.vec) := by
  rcases hjoin with hj | hj | hj <;>
    (rw [ts_type_assoc.eq_def]; simp only [hj, String.reduceEq, or_self, true_or, or_true, false_or, or_false, reduceIte];
     split <;> rename_i x heq <;> (conv_rhs => rw [heq]) <;>
       first
         | rfl
         | (cases x <;> rfl))

/-- Evaluation of `ts_type_assoc` on a path that joins to `"HashMap"` or
`"BTreeMap"`: the map arm of the string match, which passes the fixed name
`"HashMap"` to `gen_args`. -/
theorem ts_type_assoc_map_branch (p : SynPath)
    (hjoin : join_path p = "HashMap" ∨ join_path p = "BTreeMap") :
    ts_type_assoc (Typ.path p) =
      match gen_args p 2 "HashMap" with
      | .error e => .error e
      | .ok targs =>
        match targs with
        | tk :: tv :: _ =>
          match ts_type_assoc tk with
          | .error e => .error e
          | .ok tks =>
            match ts_type_assoc tv with
            | .error e => .error e
            | .ok tvs => .ok ("Record<" ++ tks.1 ++ ", " ++ tvs.1 ++ ">", Assoc.single)
        | _ => .error "index out of bounds: the len is 0 but the index is 0" := by
  rcases hjoin with hj | hj <;>
    (rw [ts_type_assoc.eq_def]; simp only [hj, String.reduceEq, or_self, true_or, or_true, false_or, or_false, reduceIte];
     split <;> rename_i x heq <;> (conv_rhs => rw [heq]) <;>
       first
         | rfl
         | (rcases x with _ | ⟨tk, _ | ⟨tv, tail⟩⟩ <;> rfl))

/-- Arity-mismatch behaviour of the projector on a wrapper applied with an
angle-bracketed argument list of the wrong length: the error message is built
from the family representative name passed to `gen_args` ("Option", "Vec" or
"HashMap"), not from the wrapper spelling used at the call site. -/
theorem ts_type_arity_mismatch (lc : Bool) (nm rep : String) (arity : Nat)
    (args : List (Option Typ))
    (hfam : (nm = "Option" ∧ rep = "Option" ∧ arity = 1)
      ∨ ((nm = "Vec" ∨ nm = "HashSet" ∨ nm = "BTreeSet") ∧ rep = "Vec" ∧ arity = 1)
      ∨ ((nm = "HashMap" ∨ nm = "BTreeMap") ∧ rep = "HashMap" ∧ arity = 2))
    (hlen : args.length ≠ arity) :
    ts_type (Typ.path ⟨lc, [(nm, ArgKind.angleBracketed, args)]⟩)
      = .error (rep ++ " expects " ++ toString arity ++ " generic(s) argument(s), found "
          ++ toString args.length) := by
  have hga : ∀ (n : Nat) (r : String),
      gen_args ⟨lc, [(nm, ArgKind.angleBracketed, args)]⟩ n r
        = if args.length ≠ n then
            .error (r ++ " expects " ++ toString n ++ " generic(s) argument(s), found "
              ++ toString args.length)
          else extract_types args r := by
    intro n r
    simp [gen_args]
  rcases hfam with ⟨hn, hr, ha⟩ | ⟨hn, hr, ha⟩ | ⟨hn, hr, ha⟩ <;> subst hr <;> subst ha
  · subst hn
    rw [ts_type, ts_type_assoc_option_branch _ (join_path_single ..), hga, if_pos hlen]
  · have hj : join_path ⟨lc, [(nm, ArgKind.angleBracketed, args)]⟩ = "Vec"
        ∨ join_path ⟨lc, [(nm, ArgKind.angleBracketed, args)]⟩ = "HashSet"
        ∨ join_path ⟨lc, [(nm, ArgKind.angleBracketed, args)]⟩ = "BTreeSet" := by
      rcases hn with hn | hn | hn <;> subst hn <;> simp [join_path_single]
    rw [ts_type, ts_type_assoc_vec_branch _ hj, hga, if_pos hlen]
  · have hj : join_path ⟨lc, [(nm, ArgKind.angleBracketed, args)]⟩ = "HashMap"
        ∨ join_path ⟨lc, [(nm, ArgKind.angleBracketed, args)]⟩ = "BTreeMap" := by
      rcases hn with hn | hn <;> subst hn <;> simp [join_path_single]
    rw [ts_type, ts_type_assoc_map_branch _ hj, hga, if_pos hlen]

theorem hm_get_insert_self {α : Type} (k : String) (v : α) (m : List (String × α)) :
    hm_get k (hm_insert k v m) = some v := by
  simp [hm_get, hm_insert, List.find?]

theorem hm_get_insert_other {α : Type} (k k2 : String) (v : α) (m : List (String × α))
    (h : k2 ≠ k) : hm_get k (hm_insert k2 v m) = hm_get k m := by
  simp only [hm_get, hm_insert]
  rw [List.find?_cons_of_neg _ (by simp [h])]
  congr 1
  induction m with
  | nil => simp
  | cons p rest ih =>
    by_cases hp : (p.1 == k2) = true
    · have hp1 : p.1 = k2 := by simpa using hp
      have hpk : (p.1 == k) = false := by simp [hp1, h]
      simp [List.filter_cons, hp, List.find?, hpk, ih]
    · by_cases hk : (p.1 == k) = true
      · simp [List.filter_cons, hp, List.find?, hk]
      · simp [List.filter_cons, hp, List.find?, hk, ih]

theorem hm_count_insert_self {α : Type} (k : String) (v : α) (m : List (String × α)) :
    ((hm_insert k v m).filter (fun p => p.1 == k)).length = 1 := by
  simp only [hm_insert, List.filter_cons]
  simp only [beq_self_eq_true, if_pos]
  have : (List.filter (fun p => p.1 == k) (List.filter (fun p => !(p.1 == k)) m)) = [] := by
    rw [List.filter_filter]
    apply List.filter_eq_nil_iff.mpr
    intro a _
    by_cases h : a.1 == k <;> simp [h]
  simp [this]

theorem hm_count_insert_other {α : Type} (k k2 : String) (v : α) (m : List (String × α))
    (h : k2 ≠ k) :
    ((hm_insert k2 v m).filter (fun p => p.1 == k)).length
      = (m.filter (fun p => p.1 == k)).length := by
  simp only [hm_insert, List.filter_cons]
  have hk2 : ¬ ((k2, v).1 == k) = true := by simp [h]
  simp only [hk2, if_neg, Bool.false_eq_true, not_false_iff, ite_false]
  congr 1
  rw [List.filter_filter]
  apply List.filter_congr
  intro a _
  by_cases ha : a.1 == k
  · have : (a.1 == k2) = false := by
      simp at ha ⊢
      rw [ha]
      exact fun hc => h hc.symm
    simp [ha, this]
  · simp [ha]

theorem push_method_fields (ii : ItemImpl) (c : Contract) (m : ImplItemMethod) :
    (Contract.push_method ii c m).name = c.name
    ∧ (Contract.push_method ii c m).interfaces = c.interfaces
    ∧ (Contract.push_method ii c m).items = c.items
    ∧ (Contract.push_method ii c m).methods = hm_insert m.sig_ident (m, ii) c.methods
    ∧ (Contract.push_method ii c m).init_methods
        = c.init_methods ++ (if m.is_init then [m.sig_ident] else [])
    ∧ (Contract.push_method ii c m).change_methods
        = c.change_methods ++ (if !m.is_init && m.is_mut then [m.sig_ident] else [])
    ∧ (Contract.push_method ii c m).view_methods
        = c.view_methods ++ (if !m.is_init && !m.is_mut then [m.sig_ident] else []) := by
  by_cases h1 : m.is_init = true <;> by_cases h2 : m.is_mut = true <;>
    simp [Contract.push_method, h1, h2]

theorem foldl_push_method_lists (ii : ItemImpl) (ms : List ImplItemMethod) (c : Contract) :
    (ms.foldl (Contract.push_method ii) c).init_methods
      = c.init_methods ++ (ms.filter (fun m => m.is_init)).map (fun m => m.sig_ident)
    ∧ (ms.foldl (Contract.push_method ii) c).change_methods
      = c.change_methods
        ++ (ms.filter (fun m => !m.is_init && m.is_mut)).map (fun m => m.sig_ident)
    ∧ (ms.foldl (Contract.push_method ii) c).view_methods
      = c.view_methods
        ++ (ms.filter (fun m => !m.is_init && !m.is_mut)).map (fun m => m.sig_ident)
    ∧ (ms.foldl (Contract.push_method ii) c).name = c.name
    ∧ (ms.foldl (Contract.push_method ii) c).interfaces = c.interfaces
    ∧ (ms.foldl (Contract.push_method ii) c).items = c.items := by
  induction ms generalizing c with
  | nil => simp
  | cons m rest ih =>
    simp only [List.foldl_cons, List.filter_cons]
    obtain ⟨hn, hi, hit, hm, h1, h2, h3⟩ := push_method_fields ii c m
    obtain ⟨g1, g2, g3, g4, g5, g6⟩ := ih (Contract.push_method ii c m)
    refine ⟨?_, ?_, ?_, ?_, ?_, ?_⟩
    · rw [g1, h1]
      by_cases hini : m.is_init = true <;> simp [hini]
    · rw [g2, h2]
      by_cases hini : m.is_init = true <;> by_cases hmut : m.is_mut = true <;>
        simp [hini, hmut]
    · rw [g3, h3]
      by_cases hini : m.is_init = true <;> by_cases hmut : m.is_mut = true <;>
        simp [hini, hmut]
    · rw [g4, hn]
    · rw [g5, hi]
    · rw [g6, hit]

theorem foldl_push_method_get (ii : ItemImpl) (ms : List ImplItemMethod) (c : Contract)
    (n : String) :
    hm_get n (ms.foldl (Contract.push_method ii) c).methods =
      match (ms.filter (fun m => m.sig_ident == n)).getLast? with
      | some m => some (m, ii)
      | none => hm_get n c.methods := by
  induction ms generalizing c with
  | nil => simp
  | cons m rest ih =>
    simp only [List.foldl_cons, List.filter_cons]
    obtain ⟨_, _, _, hm, _, _, _⟩ := push_method_fields ii c m
    rw [ih (Contract.push_method ii c m)]
    by_cases hname : (m.sig_ident == n) = true
    · simp only [hname, if_pos]
      cases hrest : (rest.filter (fun m2 => m2.sig_ident == n)).getLast? with
      | some m2 => simp [List.getLast?_cons, hrest]
      | none =>
        have hfil : rest.filter (fun m2 => m2.sig_ident == n) = [] := by
          cases hr : rest.filter (fun m2 => m2.sig_ident == n) with
          | nil => rfl
          | cons a l => rw [hr] at hrest; simp [List.getLast?] at hrest
        simp only [hfil, List.getLast?_cons, List.getLast?_nil]
        simp only [hm]
        have : m.sig_ident = n := by simpa using hname
        rw [this, hm_get_insert_self]
        rfl
    · simp only [hname, Bool.false_eq_true, not_false_iff, if_neg]
      simp only [hm]
      cases hrest : (rest.filter (fun m2 => m2.sig_ident == n)).getLast? with
      | some m2 => rfl
      | none =>
        have : m.sig_ident ≠ n := by simpa using hname
        simp [hm_get_insert_other n m.sig_ident _ _ this]

theorem foldl_push_method_count (ii : ItemImpl) (ms : List ImplItemMethod) (c : Contract)
    (n : String) :
    ((ms.foldl (Contract.push_method ii) c).methods.filter (fun p => p.1 == n)).length =
      match ms.filter (fun m => m.sig_ident == n) with
      | [] => (c.methods.filter (fun p => p.1 == n)).length
      | _ :: _ => 1 := by
  induction ms generalizing c with
  | nil => simp
  | cons m rest ih =>
    simp only [List.foldl_cons, List.filter_cons]
    obtain ⟨_, _, _, hm, _, _, _⟩ := push_method_fields ii c m
    rw [ih (Contract.push_method ii c m)]
    by_cases hname : (m.sig_ident == n) = true
    · have hmn : m.sig_ident = n := by simpa using hname
      simp only [hname, if_pos]
      cases hrest : rest.filter (fun m2 => m2.sig_ident == n) with
      | nil =>
        simp only [hm, hmn]
        simp [hm_count_insert_self]
      | cons a l => rfl
    · simp only [hname, Bool.false_eq_true, not_false_iff, if_neg, hm]
      have hne : m.sig_ident ≠ n := by simpa using hname
      cases hrest : rest.filter (fun m2 => m2.sig_ident == n) with
      | nil => simp [hm_count_insert_other n m.sig_ident _ _ hne]
      | cons a l => rfl

theorem push_impl_lists_aux (c : Contract) (ii : ItemImpl) (ms : List ImplItemMethod)
    (h : ii.bindgen_methods = some ms) :
    (c.push_impl ii).init_methods
      = c.init_methods ++ (ms.filter (fun m => m.is_init)).map (fun m => m.sig_ident)
    ∧ (c.push_impl ii).change_methods
      = c.change_methods
        ++ (ms.filter (fun m => !m.is_init && m.is_mut)).map (fun m => m.sig_ident)
    ∧ (c.push_impl ii).view_methods
      = c.view_methods
        ++ (ms.filter (fun m => !m.is_init && !m.is_mut)).map (fun m => m.sig_ident) := by
  unfold Contract.push_impl
  rw [h]
  cases hgt : ii.get_trait_name with
  | some tn =>
    simp only [hgt]
    obtain ⟨g1, g2, g3, _, _, _⟩ :=
      foldl_push_method_lists ii ms { c with interfaces := c.interfaces ++ [tn] }
    simp [g1, g2, g3]
  | none =>
    cases hgi : ii.get_impl_name with
    | some impl_name =>
      simp only [hgt, hgi]
      obtain ⟨g1, g2, g3, _, _, _⟩ :=
        foldl_push_method_lists ii ms { c with name := some impl_name }
      simp [g1, g2, g3]
    | none =>
      simp only [hgt, hgi]
      obtain ⟨g1, g2, g3, _, _, _⟩ := foldl_push_method_lists ii ms c
      simp [g1, g2, g3]

theorem push_impl_name_aux (c : Contract) (ii : ItemImpl) (ms : List ImplItemMethod)
    (h : ii.bindgen_methods = some ms) :
    (c.push_impl ii).name =
      match ii.get_trait_name with
      | some _ => c.name
      | none =>
        match ii.get_impl_name with
        | some impl_name => some impl_name
        | none => c.name := by
  unfold Contract.push_impl
  rw [h]
  cases hgt : ii.get_trait_name with
  | some tn =>
    simp only [hgt]
    obtain ⟨_, _, _, g4, _, _⟩ :=
      foldl_push_method_lists ii ms { c with interfaces := c.interfaces ++ [tn] }
    simp [g4]
  | none =>
    cases hgi : ii.get_impl_name with
    | some impl_name =>
      simp only [hgt, hgi]
      obtain ⟨_, _, _, g4, _, _⟩ :=
        foldl_push_method_lists ii ms { c with name := some impl_name }
      simp [g4]
    | none =>
      simp only [hgt, hgi]
      obtain ⟨_, _, _, g4, _, _⟩ := foldl_push_method_lists ii ms c
      simp [g4]

theorem push_impl_methods_same (c : Contract) (ii : ItemImpl) (ms : List ImplItemMethod)
    (h : ii.bindgen_methods = some ms) :
    ∃ c1 : Contract, c1.methods = c.methods
      ∧ (c.push_impl ii).methods = (ms.foldl (Contract.push_method ii) c1).methods := by
  unfold Contract.push_impl
  rw [h]
  cases hgt : ii.get_trait_name with
  | some tn =>
    exact ⟨{ c with interfaces := c.interfaces ++ [tn] }, rfl, rfl⟩
  | none =>
    cases hgi : ii.get_impl_name with
    | some impl_name => exact ⟨{ c with name := some impl_name }, rfl, rfl⟩
    | none => exact ⟨c, rfl, rfl⟩

theorem push_impl_get_aux (c : Contract) (ii : ItemImpl) (ms : List ImplItemMethod)
    (h : ii.bindgen_methods = some ms) (n : String) :
    hm_get n (c.push_impl ii).methods =
      match (ms.filter (fun m => m.sig_ident == n)).getLast? with
      | some m => some (m, ii)
      | none => hm_get n c.methods := by
  obtain ⟨c1, hc1, heq⟩ := push_impl_methods_same c ii ms h
  rw [heq, foldl_push_method_get, hc1]

theorem push_impl_count_aux (c : Contract) (ii : ItemImpl) (ms : List ImplItemMethod)
    (h : ii.bindgen_methods = some ms) (n : String) :
    ((c.push_impl ii).methods.filter (fun p => p.1 == n)).length =
      match ms.filter (fun m => m.sig_ident == n) with
      | [] => (c.methods.filter (fun p => p.1 == n)).length
      | _ :: _ => 1 := by
  obtain ⟨c1, hc1, heq⟩ := push_impl_methods_same c ii ms h
  rw [heq, foldl_push_method_count, hc1]

/-- Fixture: a single-segment, argument-free attribute such as
`#[near_bindgen]` or `#[init]`. -/
def attr_plain (nm : String) : Attribute :=
  { path := ⟨false, [(nm, ArgKind.noArgs, [])]⟩, tokens := "" }

/-- Fixture: a doc-comment attribute `#[doc = s]`. -/
def attr_doc_fix (s : String) : Attribute :=
  { path := ⟨false, [("doc", ArgKind.noArgs, [])]⟩, tokens := s }

/-- Fixture: `pub fn nm(&self)`. -/
def method_view_fix (nm : String) : ImplItemMethod :=
  { attrs := [], vis := Visibility.pub, sig_ident := nm,
    sig_inputs := [FnArg.receiver false], sig_output := none }

/-- Fixture: `pub fn nm(&mut self)`. -/
def method_change_fix (nm : String) : ImplItemMethod :=
  { attrs := [], vis := Visibility.pub, sig_ident := nm,
    sig_inputs := [FnArg.receiver true], sig_output := none }

/-- Fixture: `#[init] pub fn nm()`. -/
def method_init_fix (nm : String) : ImplItemMethod :=
  { attrs := [attr_plain "init"], vis := Visibility.pub, sig_ident := nm,
    sig_inputs := [], sig_output := none }

/-- Fixture: `fn nm(&self)` with inherited (non-`pub`) visibility. -/
def method_plain_fix (nm : String) : ImplItemMethod :=
  { attrs := [], vis := Visibility.inherited, sig_ident := nm,
    sig_inputs := [FnArg.receiver false], sig_output := none }

/-- Fixture: `#[near_bindgen] impl tyName { ms }` (bare implementation). -/
def impl_bare_fix (tyName : String) (ms : List ImplItemMethod) : ItemImpl :=
  { attrs := [attr_plain "near_bindgen"], trait_ := none,
    self_ty := namedTy tyName, items := ms.map ImplItem.method }

/-- Fixture: `#[near_bindgen] impl traitName for tyName { ms }`. -/
def impl_trait_fix (traitName tyName : String) (ms : List ImplItemMethod) : ItemImpl :=
  { attrs := [attr_plain "near_bindgen"],
    trait_ := some ⟨false, [(traitName, ArgKind.noArgs, [])]⟩,
    self_ty := namedTy tyName, items := ms.map ImplItem.method }

/-- **C1.** For every exported method pushed into the contract model by
`Contract::push_impl`, the name of the method is placed into exactly one category
list by the rule: `is_init` ⇒ init list; otherwise a mutable self-receiver
(`is_mut`) ⇒ change list; otherwise ⇒ view list.  Stated as: pushing an impl
whose bindgen methods are `ms` extends each category list by exactly the
names of the methods of `ms` in that category, in order, and by nothing
else. -/
theorem push_impl_categorizes (c : Contract) (ii : ItemImpl) (ms : List ImplItemMethod)
    (h : ii.bindgen_methods = some ms) :
    (c.push_impl ii).init_methods
      = c.init_methods ++ (ms.filter (fun m => m.is_init)).map (fun m => m.sig_ident)
    ∧ (c.push_impl ii).change_methods
      = c.change_methods
        ++ (ms.filter (fun m => !m.is_init && m.is_mut)).map (fun m => m.sig_ident)
    ∧ (c.push_impl ii).view_methods
      = c.view_methods
        ++ (ms.filter (fun m => !m.is_init && !m.is_mut)).map (fun m => m.sig_ident) :=
  push_impl_lists_aux c ii ms h

/-- Witness for C1 at a concrete impl with one init, one change and one view
method. -/
theorem push_impl_categorizes_witness :
    (impl_bare_fix "Counter"
        [method_init_fix "make", method_change_fix "incr", method_view_fix "get"]).bindgen_methods
      = some [method_init_fix "make", method_change_fix "incr", method_view_fix "get"]
    ∧ ((Contract.new.push_impl (impl_bare_fix "Counter"
          [method_init_fix "make", method_change_fix "incr", method_view_fix "get"])).init_methods
        = Contract.new.init_methods
          ++ (([method_init_fix "make", method_change_fix "incr",
              method_view_fix "get"].filter (fun m => m.is_init)).map (fun m => m.sig_ident))
      ∧ (Contract.new.push_impl (impl_bare_fix "Counter"
          [method_init_fix "make", method_change_fix "incr", method_view_fix "get"])).change_methods
        = Contract.new.change_methods
          ++ (([method_init_fix "make", method_change_fix "incr",
              method_view_fix "get"].filter (fun m => !m.is_init && m.is_mut)).map
                (fun m => m.sig_ident))
      ∧ (Contract.new.push_impl (impl_bare_fix "Counter"
          [method_init_fix "make", method_change_fix "incr", method_view_fix "get"])).view_methods
        = Contract.new.view_methods
          ++ (([method_init_fix "make", method_change_fix "incr",
              method_view_fix "get"].filter (fun m => !m.is_init && !m.is_mut)).map
                (fun m => m.sig_ident))) :=
  ⟨rfl, push_impl_categorizes Contract.new
    (impl_bare_fix "Counter"
      [method_init_fix "make", method_change_fix "incr", method_view_fix "get"])
    [method_init_fix "make", method_change_fix "incr", method_view_fix "get"] rfl⟩

/-- **C2.** `is_exported` holds iff (the method is `pub` or the impl
implements a named trait) and the method is not marked `private`; hence a
non-`pub` method of a trait impl is exported unless `private`, and a method
of a bare impl is exported only when `pub`. -/
theorem is_exported_characterization (m : ImplItemMethod) (i : ItemImpl) :
    (m.is_exported i = ((m.is_public || i.trait_.isSome) && !m.is_private))
    ∧ (i.trait_.isSome = true → m.is_private = false → m.is_exported i = true)
    ∧ (i.trait_ = none → m.is_exported i = (m.is_public && !m.is_private)) := by
  refine ⟨rfl, ?_, ?_⟩
  · intro h1 h2
    simp [ImplItemMethod.is_exported, h1, h2]
  · intro h
    simp [ImplItemMethod.is_exported, h]

/-- Witness for C2: a non-`pub`, non-`private` method of a trait impl is
exported. -/
theorem is_exported_characterization_witness :
    (impl_trait_fix "MyTrait" "Counter" [method_plain_fix "get"]).trait_.isSome = true
    ∧ (method_plain_fix "get").is_private = false
    ∧ (method_plain_fix "get").is_exported
        (impl_trait_fix "MyTrait" "Counter" [method_plain_fix "get"]) = true :=
  ⟨rfl, rfl,
    (is_exported_characterization (method_plain_fix "get")
      (impl_trait_fix "MyTrait" "Counter" [method_plain_fix "get"])).2.1 rfl rfl⟩

/-- **C5 counterexample.** Pushing a second bare implementation with
bindgen-exported methods does not leave the already-set name unchanged: it
overwrites it. -/
theorem push_impl_name_overwrite_cex :
    (Contract.new.push_impl (impl_bare_fix "A" [method_view_fix "f"])).name = some "A"
    ∧ ((Contract.new.push_impl (impl_bare_fix "A" [method_view_fix "f"])).push_impl
        (impl_bare_fix "B" [method_view_fix "g"])).name = some "B"
    ∧ (some "B" : Option String) ≠ some "A" :=
  ⟨rfl, rfl, by decide⟩

/-- **C5 amended.** Every pushed bare implementation whose self type is a
simple path and that has bindgen-exported methods sets the model name from
its owning type, regardless of any previously set name: the most recently
pushed such implementation wins. -/
theorem push_impl_name_last_wins (c : Contract) (ii : ItemImpl) (ms : List ImplItemMethod)
    (n : String) (h1 : ii.bindgen_methods = some ms) (h2 : ii.trait_ = none)
    (h3 : ii.get_impl_name = some n) :
    (c.push_impl ii).name = some n := by
  rw [push_impl_name_aux c ii ms h1]
  have hgt : ii.get_trait_name = none := by simp [ItemImpl.get_trait_name, h2]
  simp [hgt, h3]

/-- Witness for the amended C5: the second bare impl re-sets the name. -/
theorem push_impl_name_last_wins_witness :
    (impl_bare_fix "B" [method_view_fix "g"]).bindgen_methods = some [method_view_fix "g"]
    ∧ (impl_bare_fix "B" [method_view_fix "g"]).trait_ = none
    ∧ (impl_bare_fix "B" [method_view_fix "g"]).get_impl_name = some "B"
    ∧ ((Contract.new.push_impl (impl_bare_fix "A" [method_view_fix "f"])).push_impl
        (impl_bare_fix "B" [method_view_fix "g"])).name = some "B" :=
  ⟨rfl, rfl, rfl,
    push_impl_name_last_wins (Contract.new.push_impl (impl_bare_fix "A" [method_view_fix "f"]))
      (impl_bare_fix "B" [method_view_fix "g"]) [method_view_fix "g"] "B" rfl rfl rfl⟩

/-- **C6.** After pushing two impls that each declare an exported method of
the same name `n`, the method map holds exactly one entry for `n`, namely the
most recently pushed method (paired with its impl), while the category-list
entry made by the earlier registration is still present: the category list of
the earlier method still contains `n`. -/
theorem duplicate_method_overwrites_map_keeps_list
    (c : Contract) (i1 i2 : ItemImpl) (ms1 ms2 : List ImplItemMethod)
    (m1 m2 : ImplItemMethod) (n : String)
    (h1 : i1.bindgen_methods = some ms1) (h2 : i2.bindgen_methods = some ms2)
    (hm1 : m1 ∈ ms1) (hn1 : m1.sig_ident = n)
    (hm2 : ms2.filter (fun m => m.sig_ident == n) = [m2]) :
    hm_get n ((c.push_impl i1).push_impl i2).methods = some (m2, i2)
    ∧ ((((c.push_impl i1).push_impl i2).methods.filter (fun p => p.1 == n)).length = 1)
    ∧ n ∈ (if m1.is_init then ((c.push_impl i1).push_impl i2).init_methods
        else if m1.is_mut then ((c.push_impl i1).push_impl i2).change_methods
        else ((c.push_impl i1).push_impl i2).view_methods) := by
  refine ⟨?_, ?_, ?_⟩
  · rw [push_impl_get_aux (c.push_impl i1) i2 ms2 h2 n, hm2]
    simp [List.getLast?]
  · rw [push_impl_count_aux (c.push_impl i1) i2 ms2 h2 n, hm2]
  · obtain ⟨g1, g2, g3⟩ := push_impl_lists_aux c i1 ms1 h1
    obtain ⟨f1, f2, f3⟩ := push_impl_lists_aux (c.push_impl i1) i2 ms2 h2
    by_cases hini : m1.is_init = true
    · have hmem : m1 ∈ ms1.filter (fun m => m.is_init) := List.mem_filter.mpr ⟨hm1, hini⟩
      have hn : n ∈ (c.push_impl i1).init_methods := by
        rw [g1]
        exact List.mem_append_right _ (hn1 ▸ List.mem_map_of_mem _ hmem)
      rw [if_pos hini, f1]
      exact List.mem_append_left _ hn
    · by_cases hmut : m1.is_mut = true
      · have hmem : m1 ∈ ms1.filter (fun m => !m.is_init && m.is_mut) :=
          List.mem_filter.mpr ⟨hm1, by simp [hini, hmut]⟩
        have hn : n ∈ (c.push_impl i1).change_methods := by
          rw [g2]
          exact List.mem_append_right _ (hn1 ▸ List.mem_map_of_mem _ hmem)
        rw [if_neg hini, if_pos hmut, f2]
        exact List.mem_append_left _ hn
      · have hmem : m1 ∈ ms1.filter (fun m => !m.is_init && !m.is_mut) :=
          List.mem_filter.mpr ⟨hm1, by simp [hini, hmut]⟩
        have hn : n ∈ (c.push_impl i1).view_methods := by
          rw [g3]
          exact List.mem_append_right _ (hn1 ▸ List.mem_map_of_mem _ hmem)
        rw [if_neg hini, if_neg hmut, f3]
        exact List.mem_append_left _ hn

/-- Witness for C6: two bare impls each exporting a method named `get`; the
map keeps the second (a change method), the view-list entry of the first
remains. -/
theorem duplicate_method_overwrites_map_keeps_list_witness :
    (impl_bare_fix "Counter" [method_view_fix "get"]).bindgen_methods
      = some [method_view_fix "get"]
    ∧ (impl_bare_fix "Counter2" [method_change_fix "get"]).bindgen_methods
      = some [method_change_fix "get"]
    ∧ method_view_fix "get" ∈ [method_view_fix "get"]
    ∧ (method_view_fix "get").sig_ident = "get"
    ∧ [method_change_fix "get"].filter (fun m => m.sig_ident == "get")
      = [method_change_fix "get"]
    ∧ (hm_get "get" ((Contract.new.push_impl
          (impl_bare_fix "Counter" [method_view_fix "get"])).push_impl
            (impl_bare_fix "Counter2" [method_change_fix "get"])).methods
        = some (method_change_fix "get", impl_bare_fix "Counter2" [method_change_fix "get"])
      ∧ ((((Contract.new.push_impl
            (impl_bare_fix "Counter" [method_view_fix "get"])).push_impl
              (impl_bare_fix "Counter2" [method_change_fix "get"])).methods.filter
                (fun p => p.1 == "get")).length = 1)
      ∧ "get" ∈ (if (method_view_fix "get").is_init then
            ((Contract.new.push_impl
              (impl_bare_fix "Counter" [method_view_fix "get"])).push_impl
                (impl_bare_fix "Counter2" [method_change_fix "get"])).init_methods
          else if (method_view_fix "get").is_mut then
            ((Contract.new.push_impl
              (impl_bare_fix "Counter" [method_view_fix "get"])).push_impl
                (impl_bare_fix "Counter2" [method_change_fix "get"])).change_methods
          else
            ((Contract.new.push_impl
              (impl_bare_fix "Counter" [method_view_fix "get"])).push_impl
                (impl_bare_fix "Counter2" [method_change_fix "get"])).view_methods)) :=
  ⟨rfl, rfl, List.mem_singleton.mpr rfl, rfl, rfl,
    duplicate_method_overwrites_map_keeps_list Contract.new
      (impl_bare_fix "Counter" [method_view_fix "get"])
      (impl_bare_fix "Counter2" [method_change_fix "get"])
      [method_view_fix "get"] [method_change_fix "get"]
      (method_view_fix "get") (method_change_fix "get") "get"
      rfl rfl (List.mem_singleton.mpr rfl) rfl rfl⟩

/-- **C3.** Projecting `Option<Option<T>>` yields `T|null|null`: the inner
nullable is neither collapsed nor parenthesized. -/
theorem option_option_no_collapse (ty : Typ) (s : String) (a : Assoc)
    (h : ts_type_assoc ty = .ok (s, a)) :
    ts_type (optionOf (optionOf ty)) = .ok (s ++ "|null|null") := by
  rw [ts_type, ts_type_assoc_option_step, ts_type_assoc_option_step, h]
  simp [use_paren, not_gtb_or]
  rw [String.append_assoc]
  congr 1

/-- Witness for C3 at `T = U64`. -/
theorem option_option_no_collapse_witness :
    ts_type_assoc (namedTy "U64") = .ok ("U64", Assoc.single)
    ∧ ts_type (optionOf (optionOf (namedTy "U64"))) = .ok "U64|null|null" :=
  ⟨ts_type_assoc_plain false "U64" [] (by decide),
    option_option_no_collapse (namedTy "U64") "U64" Assoc.single
      (ts_type_assoc_plain false "U64" [] (by decide))⟩

/-- **C4 counterexample.** The inner projection `U64|null` has class
Nullable, yet the nullable wrapper embeds it bare:
`Option<Option<U64>>` projects to `U64|null|null`, not `(U64|null)|null`. -/
theorem nullable_inner_not_parenthesized_cex :
    ts_type_assoc (optionOf (namedTy "U64")) = .ok ("U64|null", Assoc.or)
    ∧ ts_type (optionOf (optionOf (namedTy "U64"))) = .ok "U64|null|null"
    ∧ ("U64|null|null" : String) ≠ "(U64|null)|null" := by
  have h0 : ts_type_assoc (namedTy "U64") = .ok ("U64", Assoc.single) :=
    ts_type_assoc_plain false "U64" [] (by decide)
  refine ⟨?_, ?_, by decide⟩
  · rw [ts_type_assoc_option_step, h0]
    rfl
  · rw [ts_type, ts_type_assoc_option_step, ts_type_assoc_option_step, h0]
    rfl

/-- **C4 amended.** The nullable wrapper always embeds its inner projected
text bare: the parenthesization test compares the inner class strictly
against Nullable (the greatest class), so no inner — of class Nullable,
Sequence or Scalar — is ever parenthesized by the nullable wrapper.  (It is
the sequence wrapper that parenthesizes a Nullable inner.) -/
theorem nullable_wrapper_embeds_inner_bare (ty : Typ) (s : String) (a : Assoc)
    (h : ts_type_assoc ty = .ok (s, a)) :
    ts_type_assoc (optionOf ty) = .ok (s ++ "|null", Assoc.or) := by
  rw [ts_type_assoc_option_step, h]
  simp [use_paren, not_gtb_or]

/-- Witness for the amended C4 at the pass-through type `AccountId`. -/
theorem nullable_wrapper_embeds_inner_bare_witness :
    ts_type_assoc (namedTy "AccountId") = .ok ("AccountId", Assoc.single)
    ∧ ts_type_assoc (optionOf (namedTy "AccountId")) = .ok ("AccountId|null", Assoc.or) :=
  ⟨ts_type_assoc_plain false "AccountId" [] (by decide),
    nullable_wrapper_embeds_inner_bare (namedTy "AccountId") "AccountId" Assoc.single
      (ts_type_assoc_plain false "AccountId" [] (by decide))⟩

/-- **C7 counterexample.** `HashSet<U64, U64>` (wrong arity) panics with a
message that reports both counts but names `Vec`, not the wrapper `HashSet`
that was used: the characters of `HashSet` are not an infix of the message. -/
theorem generic_arity_mismatch_hashset_cex :
    ts_type (Typ.path ⟨false, [("HashSet", ArgKind.angleBracketed,
        [some (namedTy "U64"), some (namedTy "U64")])]⟩)
      = .error "Vec expects 1 generic(s) argument(s), found 2"
    ∧ ¬ ("HashSet".data <:+: ("Vec expects 1 generic(s) argument(s), found 2").data) := by
  constructor
  · exact ts_type_arity_mismatch false "HashSet" "Vec" 1
      [some (namedTy "U64"), some (namedTy "U64")]
      (Or.inr (Or.inl ⟨Or.inr (Or.inl rfl), rfl, rfl⟩)) (by decide)
  · decide

/-- **C7 amended.** A wrapper type applied with an angle-bracketed type
argument list whose length differs from its fixed arity fails with a
`GenericArityMismatch` panic reporting the expected and the actual count,
but naming the representative of the wrapper family — `Option` for the
nullable wrapper, `Vec` for `Vec`/`HashSet`/`BTreeSet`, `HashMap` for
`HashMap`/`BTreeMap` — rather than the wrapper as written.  (A wrapper with
no angle-bracketed argument list at all instead panics with "used with no
generic arguments", without counts.) -/
theorem generic_arity_mismatch_reports_family (lc : Bool) (nm rep : String) (arity : Nat)
    (args : List (Option Typ))
    (hfam : (nm = "Option" ∧ rep = "Option" ∧ arity = 1)
      ∨ ((nm = "Vec" ∨ nm = "HashSet" ∨ nm = "BTreeSet") ∧ rep = "Vec" ∧ arity = 1)
      ∨ ((nm = "HashMap" ∨ nm = "BTreeMap") ∧ rep = "HashMap" ∧ arity = 2))
    (hlen : args.length ≠ arity) :
    ts_type (Typ.path ⟨lc, [(nm, ArgKind.angleBracketed, args)]⟩)
      = .error (rep ++ " expects " ++ toString arity ++ " generic(s) argument(s), found "
          ++ toString args.length) :=
  ts_type_arity_mismatch lc nm rep arity args hfam hlen

/-- Witness for the amended C7: `BTreeMap<U64>` fails with the `HashMap`
family message reporting 2 expected and 1 found. -/
theorem generic_arity_mismatch_reports_family_witness :
    ([some (namedTy "U64")] : List (Option Typ)).length ≠ 2
    ∧ ts_type (Typ.path ⟨false, [("BTreeMap", ArgKind.angleBracketed,
        [some (namedTy "U64")])]⟩)
      = .error ("HashMap" ++ " expects " ++ toString 2
          ++ " generic(s) argument(s), found " ++ toString
            ([some (namedTy "U64")] : List (Option Typ)).length) :=
  ⟨by decide,
    generic_arity_mismatch_reports_family false "BTreeMap" "HashMap" 2
      [some (namedTy "U64")] (Or.inr (Or.inr ⟨Or.inr rfl, rfl, rfl⟩)) (by decide)⟩

/-- **C8.** For an `is_init` method, the projected signature is the method
name followed by the packed aggregate-argument descriptor alone — the output
is exactly `name: \x7b args \x7d;`, with no `Promise<...>` result wrapper
appended; for a non-init method, every successful projection wraps the result
type in `Promise<...>`. -/
theorem ts_sig_init_vs_promise (m : ImplItemMethod) (args : List String)
    (h : ts_sig_args m.sig_inputs = .ok args) :
    (m.is_init = true →
      ts_sig m = .ok (m.sig_ident ++ ": \x7b " ++ String.intercalate ", " args ++ " \x7d;"))
    ∧ (m.is_init = false → ∀ s, ts_sig m = .ok s →
        ∃ ret, s = m.sig_ident ++ "(" ++ String.intercalate ", "
            ((if decide (args.length > 0) then
              ["args: \x7b " ++ String.intercalate ", " args ++ " \x7d"] else [])
              ++ (if m.is_mut then ["gas?: any"] else [])
              ++ (if m.is_payable then ["amount?: any"] else []))
          ++ "): Promise<" ++ ret ++ ">;") := by
  constructor
  · intro hinit
    unfold ts_sig
    rw [h]
    simp [hinit]
  · intro hinit s hs
    unfold ts_sig at hs
    rw [h] at hs
    simp only [hinit, Bool.false_eq_true, if_false] at hs
    split at hs
    · exact absurd hs (by simp)
    · rename_i ret heq
      simp only [Except.ok.injEq] at hs
      exact ⟨ret, hs.symm⟩

/-- Witness for C8: an init method with no arguments projects to the bare
aggregate form. -/
theorem ts_sig_init_vs_promise_witness :
    ts_sig_args (method_init_fix "make").sig_inputs = .ok []
    ∧ (method_init_fix "make").is_init = true
    ∧ ts_sig (method_init_fix "make")
      = .ok ((method_init_fix "make").sig_ident ++ ": \x7b "
          ++ String.intercalate ", " [] ++ " \x7d;") :=
  ⟨rfl, rfl, (ts_sig_init_vs_promise (method_init_fix "make") [] rfl).1 rfl⟩

/-- Fixture: the method of the trait descriptor used by the C9 witness. -/
def trait_method_fix : TraitItemMethod :=
  { sig_ident := "get", attrs := [attr_doc_fix "trait get doc"] }

/-- Fixture: `trait MyTrait { fn get(&self); }` wrapped as a
`NearItemTrait`. -/
def near_trait_fix : NearItemTrait :=
  NearItemTrait.new
    { attrs := [attr_doc_fix "Trait doc"], ident := "MyTrait",
      items := [TraitItem.method trait_method_fix] }

/-- Fixture: an impl method named `get` carrying a doc attribute. -/
def method_get_doc_fix : ImplItemMethod :=
  { attrs := [attr_doc_fix "impl get doc"], vis := Visibility.pub, sig_ident := "get",
    sig_inputs := [FnArg.receiver false], sig_output := none }

/-- **C9.** `join_attrs` is total and covers every case without failing:
with a trait descriptor holding a same-named method, the result is the impl
attributes followed by the trait-method attributes; with a descriptor but a
failed lookup, or with no descriptor at all, the result is the impl
attributes alone. -/
theorem join_attrs_cases (m : ImplItemMethod) (it : Option NearItemTrait) :
    (∀ bt, it = some bt → ∀ bm, bt.get m.sig_ident = some bm →
      m.join_attrs it = m.attrs ++ bm.attrs)
    ∧ (∀ bt, it = some bt → bt.get m.sig_ident = none → m.join_attrs it = m.attrs)
    ∧ (it = none → m.join_attrs it = m.attrs) := by
  refine ⟨?_, ?_, ?_⟩
  · intro bt hit bm hget
    subst hit
    simp [ImplItemMethod.join_attrs, hget]
  · intro bt hit hget
    subst hit
    simp [ImplItemMethod.join_attrs, hget]
  · intro hit
    subst hit
    simp [ImplItemMethod.join_attrs]

/-- Witness for C9: a successful lookup concatenates impl then trait doc
attributes. -/
theorem join_attrs_cases_witness :
    near_trait_fix.get (method_get_doc_fix.sig_ident) = some trait_method_fix
    ∧ method_get_doc_fix.join_attrs (some near_trait_fix)
      = method_get_doc_fix.attrs ++ trait_method_fix.attrs :=
  ⟨rfl,
    (join_attrs_cases method_get_doc_fix (some near_trait_fix)).1 near_trait_fix rfl
      trait_method_fix rfl⟩

/-- Fixture: the qualified attribute `#[near_sdk::near_bindgen]`. -/
def attr_qualified_fix : Attribute :=
  { path := ⟨false, [("near_sdk", ArgKind.noArgs, []), ("near_bindgen", ArgKind.noArgs, [])]⟩
    tokens := "" }

/-- Fixture: the leading-double-colon attribute `#[::near_bindgen]`. -/
def attr_leading_colon_fix : Attribute :=
  { path := ⟨true, [("near_bindgen", ArgKind.noArgs, [])]⟩
    tokens := "" }

/-- Spec-side form of the marker-recognition rule of C10: the attribute path
either is exactly the single-segment marker name (no leading colon, one
segment, no generic arguments), or has at least two segments and its last
segment is the marker name with no generic arguments. -/
def spec_marker_form (p : SynPath) (name : String) : Bool :=
  (match p.leading_colon, p.segments with
    | false, [(id, ArgKind.noArgs, _)] => id == name
    | _, _ => false)
  ||
  (match p.segments with
    | _ :: _ :: _ =>
      (match p.segments.getLast? with
        | some (id, ArgKind.noArgs, _) => id == name
        | _ => false)
    | _ => false)

theorem is_ident_eq_spec_marker_form (p : SynPath) (name : String) :
    is_ident p name = spec_marker_form p name := by
  unfold is_ident spec_marker_form syn_path_is_ident last_segment_is_ident
  congr 1
  match hsegs : p.segments with
  | [] => simp [hsegs]
  | [a] => simp [hsegs]
  | a :: b :: l =>
    simp only [hsegs]
    have hlen : decide ((a :: b :: l).length ≥ 2) = true := by simp
    rw [hlen, Bool.true_and]
    cases hlast : (a :: b :: l).getLast? with
    | none => simp at hlast
    | some seg =>
      obtain ⟨id, k, rest⟩ := seg
      cases k <;> simp

/-- **C10.** The marker-detection predicate `has_attr` (used for
`near_bindgen` / `init` / `payable` / `private`) returns true iff some
attribute path matches the marker rule: exactly the single-segment marker
name, or at least two segments whose last segment equals the marker name and
carries no generic arguments.  In particular `near_sdk::near_bindgen` is
recognized while `::near_bindgen` is not. -/
theorem has_attr_marker_characterization :
    (∀ (attrs : List Attribute) (name : String),
      has_attr attrs name = attrs.any (fun attr => spec_marker_form attr.path name))
    ∧ has_attr [attr_qualified_fix] "near_bindgen" = true
    ∧ has_attr [attr_leading_colon_fix] "near_bindgen" = false := by
  refine ⟨?_, rfl, rfl⟩
  intro attrs name
  induction attrs with
  | nil => rfl
  | cons attr rest ih =>
    by_cases hia : is_ident attr.path name = true
    · simp [has_attr, hia, is_ident_eq_spec_marker_form attr.path name ▸ hia]
    · have hia2 : is_ident attr.path name = false := by simpa using hia
      simp [has_attr, hia2, is_ident_eq_spec_marker_form attr.path name ▸ hia2, ih]
